import Mathlib

/-!
# Verification of `wwdetect/wavenet/wavenet_loader.py` (`HeySnipsDataset`)

Shallow embedding of the dataset container of the WakeWord-Detection
repository.  Feature values (numpy `float32`) are modelled as exact
rationals: the loader never performs arithmetic on them, it only copies
them and fills with zeros, so the embedding is value-exact.  The numpy
random shuffles are modelled by oracle functions, constrained to be
permutations in the theorems.  A Python exception is modelled by
`Option`/`Except` being `none`/`error`.
-/

set_option autoImplicit false

namespace WWDetect

/-- One loaded example: mirrors the dict built in
`HeySnipsDataset.preload_data` (`file_name`, `label`, `start_speech`,
`end_speech`, `features`). -/
structure Record where
  file_name : String
  label : Nat
  start_speech : Int
  end_speech : Int
  features : List (List Rat)
deriving DecidableEq, Inhabited

/-- Python `int(x)` truncation toward zero, on exact rationals. -/
def intTrunc (q : Rat) : Int := if 0 ≤ q then Int.floor q else Int.ceil q

/-- Python slice `l[:k]` for an arbitrary integer `k` (a negative `k`
counts from the end, clamped at 0). -/
def pyTake {α : Type} (l : List α) (k : Int) : List α :=
  if 0 ≤ k then l.take k.toNat else l.take (l.length - (-k).toNat)

/-- Python `max` over a list of naturals (the code only applies it to
nonempty lists, where the `0` seed is absorbed). -/
def pyMax (l : List Nat) : Nat := l.foldl max 0

/-- numpy `x.shape[-1]` for a 2D array modelled as a list of rows. -/
def lastDim (x : List (List Rat)) : Nat := (x.headD []).length

/-- `np.uint8` conversion. -/
def toUInt8 (n : Int) : Nat := (n % 256).toNat

/-- `np.int16` conversion. -/
def toInt16 (n : Int) : Int := (n + 2 ^ 15) % 2 ^ 16 - 2 ^ 15

/-- One output slot of `pad_features`: a zero array of shape `(L, W0)`
whose top-left region receives `x`, as in the numpy assignment
`X_padded[idx, :t, :w] = x` (rows `< t`, columns `< min w W0`; the
column slice `[:w]` clamps at the destination width `W0`). -/
def padSlot (L W0 : Nat) (x : List (List Rat)) : List (List Rat) :=
  (List.range L).map fun i => (List.range W0).map fun j =>
    if i < x.length ∧ j < min (lastDim x) W0 then (x.getD i []).getD j 0 else 0

/-- numpy broadcast check for the assignment
`X_padded[idx, :t, :w] = np.expand_dims(x, 0)`: the destination slice has
shape `(t, min w W0)`; copying the source of shape `(1, t, w)` succeeds
iff `w = min w W0` (i.e. `w ≤ W0`) or the source column dimension is 1. -/
def broadcastOk (W0 : Nat) (x : List (List Rat)) : Bool :=
  decide (lastDim x ≤ W0) || decide (lastDim x = 1)

/-- `HeySnipsDataset.pad_features`.  `none` models the Python exception:
`max([])` / `X[0]` on an empty batch, or a numpy broadcast `ValueError`
when some array is wider than the first one. -/
def pad_features (X : List (List (List Rat))) : Option (List (List (List Rat))) :=
  match X with
  | [] => none
  | x0 :: _ =>
    if X.all (broadcastOk (lastDim x0)) then
      some (X.map (padSlot (pyMax (X.map List.length)) (lastDim x0)))
    else none

/-- The in-memory state of a `HeySnipsDataset` instance. -/
structure DState where
  dataset : List Record
  num_features : Nat
  batch_size : Nat
  num_batches : Nat
  num_wakewords : Nat
  shuffle : Bool
deriving DecidableEq, Inhabited

/-- One group of the h5 feature store, as seen by `preload_data`:
key, attributes `is_hotword`, `speech_start_ts`, `speech_end_ts`, and the
2D numeric payload. -/
structure RawEntry where
  key : String
  is_hotword : Int
  speech_start_ts : Int
  speech_end_ts : Int
  payload : List (List Rat)
deriving DecidableEq, Inhabited

/-- The record dict appended for one store key in `preload_data`. -/
def mkRecord (e : RawEntry) : Record :=
  { file_name := e.key
    label := toUInt8 e.is_hotword
    start_speech := toInt16 e.speech_start_ts
    end_speech := toInt16 e.speech_end_ts
    features := e.payload }

/-- One loop iteration of `preload_data`: append the record for a key and
bump the wakeword count when the raw `is_hotword` attribute equals 1. -/
def preloadStep (p : List Record × Nat) (e : RawEntry) : List Record × Nat :=
  (p.1 ++ [mkRecord e], if e.is_hotword = 1 then p.2 + 1 else p.2)

/-- `HeySnipsDataset.preload_data`: fold over the store keys, appending a
record per key and counting keys with `is_hotword == 1`. -/
def preload_data (entries : List RawEntry) : List Record × Nat :=
  entries.foldl preloadStep ([], 0)

/-- `HeySnipsDataset.__init__` after `preload_data` returned. -/
def mkDataset (entries : List RawEntry) (batch_size num_features : Nat)
    (shuffle : Bool) : DState :=
  { dataset := (preload_data entries).1
    num_features := num_features
    batch_size := batch_size
    num_batches := (preload_data entries).1.length / batch_size
    num_wakewords := (preload_data entries).2
    shuffle := shuffle }

/-- `np.arange(batch_start, batch_start + batch_size)` in `__getitem__`. -/
def batchIdxs (s : DState) (index : Nat) : List Nat :=
  List.range' (s.batch_size * index) s.batch_size

/-- The unpadded per-record feature list built in `__getitem__`. -/
def batchFeatures (s : DState) (index : Nat) : List (List (List Rat)) :=
  (batchIdxs s index).map fun i => (s.dataset.getD i default).features

/-- The label vector built in `__getitem__`. -/
def batchLabels (s : DState) (index : Nat) : List Nat :=
  (batchIdxs s index).map fun i => (s.dataset.getD i default).label

/-- `max_length` as computed inside `pad_features` for batch `index`. -/
def batchMaxLen (s : DState) (index : Nat) : Nat :=
  pyMax ((batchFeatures s index).map List.length)

/-- `HeySnipsDataset.__getitem__`.  The method assigns no attribute of
`self`, so the returned state is the input state; the result is `none`
when Python would raise (list `IndexError` or a padding error). -/
def getitem (s : DState) (index : Nat) :
    Option (List (List (List Rat)) × List Nat) × DState :=
  (if (batchIdxs s index).all (fun i => decide (i < s.dataset.length)) then
    (pad_features (batchFeatures s index)).map fun Xp => (Xp, batchLabels s index)
  else none, s)

/-- The index-collection pass of `prune_wakewords`: indices `i` with
`dataset[i].label == 1`, in ascending order. -/
def collectWakewordIdxs (ds : List Record) : List Nat :=
  (List.range ds.length).filter fun i => (ds.getD i default).label == 1

/-- One iteration of the removal loop: append `dataset[i]` to the
wakeword list, then delete index `i` from the dataset. -/
def removeStep (p : List Record × List Record) (i : Nat) : List Record × List Record :=
  (p.1.eraseIdx i, p.2 ++ [p.1.getD i default])

/-- The removal loop of `prune_wakewords`: iterate the collected indices
in reversed (descending) order. -/
def removePass (ds : List Record) : List Record × List Record :=
  (collectWakewordIdxs ds).reverse.foldl removeStep (ds, [])

/-- `HeySnipsDataset.prune_wakewords`.  The two `np.random.shuffle` calls
are modelled by the oracles `shufW` (wakeword list) and `shufD` (final
dataset); theorems constrain them to permutations. -/
def prune_wakewords (s : DState) (keep_ratio : Rat)
    (shufW shufD : List Record → List Record) : DState :=
  let p := removePass s.dataset
  let kept := pyTake (shufW p.2) (intTrunc (keep_ratio * (s.num_wakewords : Rat)))
  let ds2 := shufD (p.1 ++ kept)
  { s with dataset := ds2, num_batches := ds2.length / s.batch_size }

/-- `HeySnipsDataset.__len__`. -/
def length_ (s : DState) : Nat := s.num_batches

/-- `HeySnipsDataset.number_of_examples`. -/
def number_of_examples (s : DState) : Nat := s.dataset.length

/-- `HeySnipsDataset.number_of_wakewords`. -/
def number_of_wakewords (s : DState) : Nat := s.num_wakewords

/-- The assertion message of `get_labels` / `get_filenames`. -/
def shuffleMsg : String := "Order may not be correct due to shuffling being enabled"

/-- `HeySnipsDataset.get_labels`; the failed `assert` is the `error` case. -/
def get_labels (s : DState) : Except String (List Nat) :=
  if s.shuffle then Except.error shuffleMsg
  else Except.ok ((List.range (number_of_examples s)).map
    fun i => (s.dataset.getD i default).label)

/-- `HeySnipsDataset.get_filenames`; the failed `assert` is the `error` case. -/
def get_filenames (s : DState) : Except String (List String) :=
  if s.shuffle then Except.error shuffleMsg
  else Except.ok ((List.range (number_of_examples s)).map
    fun i => (s.dataset.getD i default).file_name)

/-- `HeySnipsDataset.on_epoch_end`: reshuffle in place iff `shuffle`. -/
def on_epoch_end (s : DState) (shuf : List Record → List Record) : DState :=
  if s.shuffle then { s with dataset := shuf s.dataset } else s

/-! ## Concrete example data (used to witness the theorems) -/

/-- A record with the two informational timestamps zeroed. -/
def exRecord (nm : String) (lb : Nat) (fs : List (List Rat)) : Record :=
  { file_name := nm, label := lb, start_speech := 0, end_speech := 0, features := fs }

/-- A loaded two-record dataset with `batch_size = 2` and uniform feature
width 2 (one batch). -/
def sBatch : DState :=
  { dataset := [exRecord "a" 1 [[1, 2], [3, 4]], exRecord "b" 0 [[5, 6]]]
    num_features := 2
    batch_size := 2
    num_batches := 1
    num_wakewords := 1
    shuffle := false }

/-- A loaded five-record dataset: negatives at indices 0 and 2, positives
(wakewords) at indices 1, 3 and 4; `batch_size = 2`. -/
def sPrune : DState :=
  { dataset := [exRecord "n0" 0 [[1]], exRecord "p1" 1 [[2]],
      exRecord "n2" 0 [[3]], exRecord "p3" 1 [[4]], exRecord "p4" 1 [[5]]]
    num_features := 1
    batch_size := 2
    num_batches := 2
    num_wakewords := 3
    shuffle := false }

/-- `sPrune` with the shuffle flag enabled (no shuffle has run yet). -/
def sPruneShuffled : DState := { sPrune with shuffle := true }

/-- Raw store contents for a three-entry load (one wakeword). -/
def exEntries : List RawEntry :=
  [{ key := "k0", is_hotword := 0, speech_start_ts := 0, speech_end_ts := 4,
     payload := [[1]] },
   { key := "k1", is_hotword := 1, speech_start_ts := 1, speech_end_ts := 5,
     payload := [[2]] },
   { key := "k2", is_hotword := 0, speech_start_ts := 2, speech_end_ts := 6,
     payload := [[3]] }]

/-- A batch whose second array is wider than the first (widths 2 and 3). -/
def widthMismatchBatch : List (List (List Rat)) := [[[1, 2]], [[3, 4, 5]]]

/-- A batch whose second array is narrower than the first (widths 2 and 1). -/
def narrowSecondBatch : List (List (List Rat)) := [[[1, 2]], [[3]]]

/-! ## Generic list lemmas -/

theorem getD_range_map {α : Type} (f : Nat → α) (L i : Nat) (h : i < L) (d : α) :
    ((List.range L).map f).getD i d = f i := by
  rw [List.getD_eq_getElem?_getD, List.getElem?_map, List.getElem?_range h]
  rfl

theorem getD_range'_map {α : Type} (f : Nat → α) (st n i : Nat) (h : i < n) (d : α) :
    ((List.range' st n).map f).getD i d = f (st + i) := by
  rw [List.getD_eq_getElem?_getD, List.getElem?_map, List.getElem?_range' st 1 h]
  simp

theorem getD_map_lt {α β : Type} (f : α → β) (l : List α) (k : Nat) (h : k < l.length)
    (d : β) (d' : α) : (l.map f).getD k d = f (l.getD k d') := by
  rw [List.getD_eq_getElem?_getD, List.getElem?_map, List.getElem?_eq_getElem h,
    List.getD_eq_getElem?_getD, List.getElem?_eq_getElem h]
  rfl

theorem range_map_getD {α : Type} (l : List α) (d : α) :
    (List.range l.length).map (fun j => l.getD j d) = l := by
  apply List.ext_getElem (by simp)
  intro i h1 h2
  have hi : i < l.length := h2
  simp [List.getD_eq_getElem?_getD, List.getElem?_eq_getElem hi]

theorem getD_mem_of_lt {α : Type} (l : List α) (k : Nat) (d : α) (h : k < l.length) :
    l.getD k d ∈ l := by
  rw [List.getD_eq_getElem?_getD, List.getElem?_eq_getElem h]
  exact List.getElem_mem h

theorem foldl_max_le_init (l : List Nat) (b : Nat) : b ≤ l.foldl max b := by
  induction l generalizing b with
  | nil => simp
  | cons a l ih => exact le_trans (le_max_left b a) (ih (max b a))

theorem le_foldl_max {l : List Nat} {n : Nat} (h : n ∈ l) (b : Nat) :
    n ≤ l.foldl max b := by
  induction l generalizing b with
  | nil => cases h
  | cons a l ih =>
    rcases List.mem_cons.mp h with rfl | h'
    · exact le_trans (le_max_right b n) (foldl_max_le_init l (max b n))
    · exact ih h' (max b a)

theorem le_pyMax_of_mem {l : List Nat} {n : Nat} (h : n ∈ l) : n ≤ pyMax l :=
  le_foldl_max h 0

/-! ## Lemmas about `padSlot` and `pad_features` -/

theorem padSlot_length (L W0 : Nat) (x : List (List Rat)) :
    (padSlot L W0 x).length = L := by
  simp [padSlot]

theorem padSlot_row_length (L W0 : Nat) (x : List (List Rat)) (row : List Rat)
    (h : row ∈ padSlot L W0 x) : row.length = W0 := by
  simp only [padSlot, List.mem_map, List.mem_range] at h
  obtain ⟨i, _, rfl⟩ := h
  simp

theorem padSlot_entry (L W0 : Nat) (x : List (List Rat)) (i j : Nat)
    (hi : i < L) (hj : j < W0) :
    ((padSlot L W0 x).getD i []).getD j 0 =
      if i < x.length ∧ j < min (lastDim x) W0 then (x.getD i []).getD j 0 else 0 := by
  rw [padSlot, getD_range_map _ _ _ hi, getD_range_map _ _ _ hj]

theorem padSlot_row_of_rect (L W0 : Nat) (x : List (List Rat)) (i : Nat)
    (hi : i < L) (hix : i < x.length) (hdim : lastDim x = W0)
    (hrow : (x.getD i []).length = W0) :
    (padSlot L W0 x).getD i [] = x.getD i [] := by
  rw [padSlot, getD_range_map _ _ _ hi]
  have h1 : ∀ j ∈ List.range W0,
      (if i < x.length ∧ j < min (lastDim x) W0 then (x.getD i []).getD j 0 else 0) =
        (x.getD i []).getD j 0 := by
    intro j hj
    rw [List.mem_range] at hj
    rw [if_pos ⟨hix, by omega⟩]
  rw [List.map_congr_left h1, ← hrow, range_map_getD]

theorem pad_features_eq_some {x0 : List (List Rat)} {X : List (List (List Rat))}
    (h : ∀ x ∈ x0 :: X, broadcastOk (lastDim x0) x = true) :
    pad_features (x0 :: X) =
      some ((x0 :: X).map (padSlot (pyMax ((x0 :: X).map List.length)) (lastDim x0))) := by
  simp only [pad_features]
  rw [if_pos (List.all_eq_true.mpr h)]

theorem pad_features_none_iff (x0 : List (List Rat)) (X : List (List (List Rat))) :
    pad_features (x0 :: X) = none ↔
      ∃ x ∈ x0 :: X, lastDim x0 < lastDim x ∧ lastDim x ≠ 1 := by
  simp only [pad_features]
  by_cases h : (x0 :: X).all (broadcastOk (lastDim x0)) = true
  · rw [if_pos h]
    simp only [List.all_eq_true, broadcastOk, Bool.or_eq_true, decide_eq_true_eq] at h
    simp only [reduceCtorEq, false_iff, not_exists]
    intro x hx
    obtain ⟨hmem, hc⟩ := hx
    rcases h x hmem with h1 | h1
    · exact absurd h1 (not_le.mpr hc.1)
    · exact hc.2 h1
  · rw [if_neg h]
    simp only [List.all_eq_true, broadcastOk, Bool.or_eq_true, decide_eq_true_eq,
      not_forall] at h
    simp only [true_iff]
    obtain ⟨x, hx, hno⟩ := h
    push_neg at hno
    exact ⟨x, hx, hno.1, hno.2⟩

/-! ## Lemmas about batch assembly -/

theorem batch_end_le (s : DState) (index : Nat) (hb : 0 < s.batch_size)
    (hnb : s.num_batches = s.dataset.length / s.batch_size)
    (hidx : index < s.num_batches) :
    s.batch_size * index + s.batch_size ≤ s.dataset.length := by
  have h1 : index + 1 ≤ s.dataset.length / s.batch_size := by omega
  have h2 := (Nat.le_div_iff_mul_le hb).mp h1
  calc s.batch_size * index + s.batch_size = (index + 1) * s.batch_size := by ring
    _ ≤ s.dataset.length := h2

theorem batchIdxs_all_lt (s : DState) (index : Nat)
    (hle : s.batch_size * index + s.batch_size ≤ s.dataset.length) :
    (batchIdxs s index).all (fun i => decide (i < s.dataset.length)) = true := by
  rw [List.all_eq_true]
  intro i hi
  rw [batchIdxs, List.mem_range'_1] at hi
  simp only [decide_eq_true_eq]
  omega

theorem batchFeatures_length (s : DState) (index : Nat) :
    (batchFeatures s index).length = s.batch_size := by
  simp [batchFeatures, batchIdxs]

theorem batchLabels_length (s : DState) (index : Nat) :
    (batchLabels s index).length = s.batch_size := by
  simp [batchLabels, batchIdxs]

theorem batchFeatures_getD (s : DState) (index k : Nat) (hk : k < s.batch_size) :
    (batchFeatures s index).getD k [] =
      (s.dataset.getD (s.batch_size * index + k) default).features := by
  rw [batchFeatures, batchIdxs, getD_range'_map _ _ _ _ hk]

theorem batchFeatures_mem (s : DState) (index : Nat) (x : List (List Rat))
    (hx : x ∈ batchFeatures s index) :
    ∃ k < s.batch_size,
      x = (s.dataset.getD (s.batch_size * index + k) default).features := by
  simp only [batchFeatures, batchIdxs, List.mem_map] at hx
  obtain ⟨i, hi, rfl⟩ := hx
  rw [List.mem_range'_1] at hi
  refine ⟨i - s.batch_size * index, by omega, ?_⟩
  congr 2
  omega

theorem getitem_eq_some (s : DState) (index W : Nat) (hb : 0 < s.batch_size)
    (hnb : s.num_batches = s.dataset.length / s.batch_size)
    (hidx : index < s.num_batches)
    (hW : ∀ k < s.batch_size,
      lastDim (s.dataset.getD (s.batch_size * index + k) default).features = W) :
    (getitem s index).1 =
      some ((batchFeatures s index).map (padSlot (batchMaxLen s index) W),
        batchLabels s index) := by
  have hall := batchIdxs_all_lt s index (batch_end_le s index hb hnb hidx)
  have hWmem : ∀ x ∈ batchFeatures s index, lastDim x = W := by
    intro x hx
    obtain ⟨k, hk, rfl⟩ := batchFeatures_mem s index x hx
    exact hW k hk
  have hlen : (batchFeatures s index).length = s.batch_size := batchFeatures_length s index
  simp only [getitem, hall, if_true]
  cases hBF : batchFeatures s index with
  | nil =>
    rw [hBF, List.length_nil] at hlen
    omega
  | cons x0 X =>
    have hx0 : lastDim x0 = W := hWmem x0 (by rw [hBF]; exact List.mem_cons_self x0 X)
    have hb1 : ∀ x ∈ x0 :: X, broadcastOk (lastDim x0) x = true := by
      intro x hx
      have hxW : lastDim x = W := hWmem x (by rw [hBF]; exact hx)
      simp [broadcastOk, hxW, hx0]
    have hmax : batchMaxLen s index = pyMax ((x0 :: X).map List.length) := by
      show pyMax ((batchFeatures s index).map List.length) = _
      rw [hBF]
    rw [pad_features_eq_some hb1, hx0, ← hmax]
    rfl

/-- C1: for every valid batch index, `__getitem__` succeeds and returns a
features tensor of shape (batch_size, max_len_in_batch, feature_width) and
a label array of length batch_size; each record's feature array is copied
intact into the top-left region of its slot, and every position beyond the
record's own time_steps is exactly zero. -/
theorem C1_getitem_shape_pad (s : DState) (index W : Nat)
    (hb : 0 < s.batch_size)
    (hnb : s.num_batches = s.dataset.length / s.batch_size)
    (hidx : index < s.num_batches)
    (hW : ∀ k < s.batch_size,
      lastDim (s.dataset.getD (s.batch_size * index + k) default).features = W)
    (hrect : ∀ k < s.batch_size,
      ∀ row ∈ (s.dataset.getD (s.batch_size * index + k) default).features,
        row.length = W) :
    ∃ Xp y, (getitem s index).1 = some (Xp, y) ∧
      y.length = s.batch_size ∧
      Xp.length = s.batch_size ∧
      (∀ k, k < s.batch_size →
        (Xp.getD k []).length = batchMaxLen s index ∧
        (∀ row ∈ Xp.getD k [], row.length = W) ∧
        (∀ t, t < (s.dataset.getD (s.batch_size * index + k) default).features.length →
          (Xp.getD k []).getD t [] =
            (s.dataset.getD (s.batch_size * index + k) default).features.getD t []) ∧
        (∀ t j, t < batchMaxLen s index → j < W →
          ((Xp.getD k []).getD t []).getD j 0 =
            if t < (s.dataset.getD (s.batch_size * index + k) default).features.length
            then ((s.dataset.getD
              (s.batch_size * index + k) default).features.getD t []).getD j 0
            else 0)) := by
  refine ⟨(batchFeatures s index).map (padSlot (batchMaxLen s index) W),
    batchLabels s index, getitem_eq_some s index W hb hnb hidx hW, ?_, ?_, ?_⟩
  · exact batchLabels_length s index
  · rw [List.length_map, batchFeatures_length]
  · intro k hk
    have hk' : k < (batchFeatures s index).length := by
      rw [batchFeatures_length]; exact hk
    have hgd : ((batchFeatures s index).map (padSlot (batchMaxLen s index) W)).getD k [] =
        padSlot (batchMaxLen s index) W
          ((s.dataset.getD (s.batch_size * index + k) default).features) := by
      rw [getD_map_lt _ _ _ hk' _ [], batchFeatures_getD s index k hk]
    set x := (s.dataset.getD (s.batch_size * index + k) default).features with hx
    have hxW : lastDim x = W := hW k hk
    have hxlen : x.length ≤ batchMaxLen s index := by
      have hxmem : x.length ∈ (batchFeatures s index).map List.length := by
        rw [List.mem_map]
        refine ⟨x, ?_, rfl⟩
        rw [hx, ← batchFeatures_getD s index k hk]
        exact getD_mem_of_lt _ _ _ hk'
      rw [batchMaxLen]
      exact le_pyMax_of_mem hxmem
    refine ⟨?_, ?_, ?_, ?_⟩
    · rw [hgd, padSlot_length]
    · intro row hrow
      rw [hgd] at hrow
      exact padSlot_row_length _ _ _ _ hrow
    · intro t ht
      rw [hgd]
      exact padSlot_row_of_rect _ _ _ _ (by omega) ht hxW
        (hrect k hk (x.getD t []) (getD_mem_of_lt _ _ _ ht))
    · intro t j ht hj
      rw [hgd, padSlot_entry _ _ _ _ _ ht hj, hxW, Nat.min_self]
      by_cases htx : t < x.length
      · rw [if_pos ⟨htx, hj⟩, if_pos htx]
      · rw [if_neg (by omega), if_neg htx]

/-! ## The removal pass of `prune_wakewords` -/

theorem collectWakewordIdxs_cons (a : Record) (t : List Record) :
    collectWakewordIdxs (a :: t) =
      (if a.label == 1 then [0] else []) ++ (collectWakewordIdxs t).map Nat.succ := by
  rw [collectWakewordIdxs, List.length_cons, List.range_succ_eq_map, List.filter_cons]
  have hcomp : ∀ i ∈ List.range t.length,
      ((fun i => ((a :: t).getD i default).label == 1) ∘ Nat.succ) i =
        ((t.getD i default).label == 1) := by
    intro i _
    simp [Function.comp, List.getD_cons_succ]
  rw [List.filter_map, List.filter_congr hcomp]
  by_cases h : a.label = 1
  · rw [if_pos (by simp [List.getD_cons_zero, h]), if_pos (by simp [h])]
    rfl
  · rw [if_neg (by simp [List.getD_cons_zero, h]), if_neg (by simp [h])]
    rfl

theorem foldl_removeStep_shift (l : List Nat) (a : Record) (cur ww : List Record) :
    (l.map Nat.succ).foldl removeStep (a :: cur, ww) =
      (a :: (l.foldl removeStep (cur, ww)).1, (l.foldl removeStep (cur, ww)).2) := by
  induction l generalizing cur ww with
  | nil => rfl
  | cons i l ih =>
    simp only [List.map_cons, List.foldl_cons]
    have h1 : removeStep (a :: cur, ww) (i + 1) =
        (a :: cur.eraseIdx i, ww ++ [cur.getD i default]) := by
      simp [removeStep, List.eraseIdx_cons_succ, List.getD_cons_succ]
    have h2 : removeStep (cur, ww) i = (cur.eraseIdx i, ww ++ [cur.getD i default]) := rfl
    rw [h1, h2, ih]

theorem removePass_cons (a : Record) (t : List Record) :
    removePass (a :: t) =
      if a.label = 1 then ((removePass t).1, (removePass t).2 ++ [a])
      else (a :: (removePass t).1, (removePass t).2) := by
  rw [removePass, collectWakewordIdxs_cons]
  by_cases h : a.label = 1
  · rw [if_pos (by simp [h]), if_pos h, List.reverse_append]
    simp only [List.reverse_cons, List.reverse_nil, List.nil_append,
      ← List.map_reverse]
    rw [List.foldl_append, foldl_removeStep_shift]
    have hstep : removeStep
        (a :: ((collectWakewordIdxs t).reverse.foldl removeStep (t, [])).1,
          ((collectWakewordIdxs t).reverse.foldl removeStep (t, [])).2) 0 =
        (((collectWakewordIdxs t).reverse.foldl removeStep (t, [])).1,
          ((collectWakewordIdxs t).reverse.foldl removeStep (t, [])).2 ++
            [a]) := by
      simp [removeStep, List.eraseIdx, List.getD_cons_zero]
    simp only [List.foldl_cons, List.foldl_nil, hstep]
    rfl
  · rw [if_neg (by simp [h]), if_neg h]
    simp only [List.nil_append, ← List.map_reverse]
    rw [foldl_removeStep_shift]
    rfl

theorem removePass_eq (ds : List Record) :
    removePass ds =
      (ds.filter (fun x => !(x.label == 1)),
        (ds.filter (fun x => x.label == 1)).reverse) := by
  induction ds with
  | nil => rfl
  | cons a t ih =>
    rw [removePass_cons, ih]
    by_cases h : a.label = 1
    · rw [if_pos h]
      simp [List.filter_cons, h]
    · rw [if_neg h]
      simp [List.filter_cons, h]

/-! ## Counting lemmas for `prune_wakewords` -/

theorem intTrunc_nonneg_eq_floor {q : Rat} (h : 0 ≤ q) : intTrunc q = Int.floor q := by
  rw [intTrunc, if_pos h]

theorem prune_dataset_eq (s : DState) (r : Rat)
    (shufW shufD : List Record → List Record) :
    (prune_wakewords s r shufW shufD).dataset =
      shufD ((s.dataset.filter fun x => !(x.label == 1)) ++
        pyTake (shufW ((s.dataset.filter fun x => x.label == 1).reverse))
          (intTrunc (r * (s.num_wakewords : Rat)))) := by
  simp only [prune_wakewords, removePass_eq]

theorem prune_pos_count (s : DState) (r : Rat)
    (shufW shufD : List Record → List Record)
    (hsw : ∀ l, (shufW l).Perm l) (hsd : ∀ l, (shufD l).Perm l)
    (hr : 0 ≤ r) :
    ((prune_wakewords s r shufW shufD).dataset.countP fun x => x.label == 1) =
      min (intTrunc (r * (s.num_wakewords : Rat))).toNat
        (s.dataset.countP fun x => x.label == 1) := by
  have hnn : (0 : Rat) ≤ r * (s.num_wakewords : Rat) :=
    mul_nonneg hr (by positivity)
  have hk0 : 0 ≤ intTrunc (r * (s.num_wakewords : Rat)) := by
    rw [intTrunc_nonneg_eq_floor hnn]
    exact Int.floor_nonneg.mpr hnn
  rw [prune_dataset_eq, List.Perm.countP_eq _ (hsd _), List.countP_append]
  have h1 : (List.countP (fun x => x.label == 1)
      (s.dataset.filter fun x => !(x.label == 1))) = 0 := by
    rw [List.countP_eq_zero]
    intro a ha
    rw [List.mem_filter] at ha
    simpa using ha.2
  have hkept : pyTake (shufW ((s.dataset.filter fun x => x.label == 1).reverse))
      (intTrunc (r * (s.num_wakewords : Rat))) =
      (shufW ((s.dataset.filter fun x => x.label == 1).reverse)).take
        (intTrunc (r * (s.num_wakewords : Rat))).toNat := by
    rw [pyTake, if_pos hk0]
  have h2 : (List.countP (fun x => x.label == 1)
      (pyTake (shufW ((s.dataset.filter fun x => x.label == 1).reverse))
        (intTrunc (r * (s.num_wakewords : Rat))))) =
      min (intTrunc (r * (s.num_wakewords : Rat))).toNat
        (s.dataset.countP fun x => x.label == 1) := by
    rw [hkept]
    have hall : ∀ a ∈ (shufW ((s.dataset.filter fun x => x.label == 1).reverse)).take
        (intTrunc (r * (s.num_wakewords : Rat))).toNat,
        (fun x : Record => x.label == 1) a = true := by
      intro a ha
      have ha2 := List.mem_of_mem_take ha
      have ha3 := ((hsw _).mem_iff).mp ha2
      rw [List.mem_reverse, List.mem_filter] at ha3
      exact ha3.2
    rw [List.countP_eq_length.mpr hall, List.length_take, (hsw _).length_eq,
      List.length_reverse, ← List.countP_eq_length_filter]
  rw [h1, h2, Nat.zero_add]

theorem prune_length_eq (s : DState) (r : Rat)
    (shufW shufD : List Record → List Record)
    (hsw : ∀ l, (shufW l).Perm l) (hsd : ∀ l, (shufD l).Perm l)
    (hr : 0 ≤ r) :
    (prune_wakewords s r shufW shufD).dataset.length =
      (s.dataset.countP fun x => !(x.label == 1)) +
        min (intTrunc (r * (s.num_wakewords : Rat))).toNat
          (s.dataset.countP fun x => x.label == 1) := by
  have hk0 : 0 ≤ intTrunc (r * (s.num_wakewords : Rat)) := by
    rw [intTrunc_nonneg_eq_floor (mul_nonneg hr (by positivity))]
    exact Int.floor_nonneg.mpr (mul_nonneg hr (by positivity))
  rw [prune_dataset_eq, (hsd _).length_eq, List.length_append]
  congr 1
  · rw [← List.countP_eq_length_filter]
  · rw [pyTake, if_pos hk0, List.length_take, (hsw _).length_eq,
      List.length_reverse, ← List.countP_eq_length_filter]

/-! ## Further auxiliary lemmas -/

theorem countP_not_add {α : Type} (l : List α) (p : α → Bool) :
    l.countP (fun x => !(p x)) + l.countP p = l.length := by
  induction l with
  | nil => rfl
  | cons a t ih =>
    by_cases h : p a = true
    · rw [List.countP_cons_of_neg _ _ (by simp [h]),
        List.countP_cons_of_pos _ _ h, List.length_cons]
      omega
    · rw [List.countP_cons_of_pos _ _ (by simp [h]),
        List.countP_cons_of_neg _ _ h, List.length_cons]
      omega

theorem range_map_getD_comp {α β : Type} (l : List α) (d : α) (f : α → β) :
    (List.range l.length).map (fun i => f (l.getD i d)) = l.map f := by
  apply List.ext_getElem (by simp)
  intro i h1 h2
  have hi : i < l.length := by simpa using h2
  rw [List.getElem_map, List.getElem_range, List.getElem_map]
  congr 1
  rw [List.getD_eq_getElem?_getD, List.getElem?_eq_getElem hi]
  rfl

theorem foldl_preloadStep (entries : List RawEntry) (acc : List Record × Nat) :
    entries.foldl preloadStep acc =
      (acc.1 ++ entries.map mkRecord,
        acc.2 + entries.countP fun e => e.is_hotword == 1) := by
  induction entries generalizing acc with
  | nil => simp
  | cons e t ih =>
    rw [List.foldl_cons, ih]
    by_cases h : e.is_hotword = 1
    · rw [List.countP_cons_of_pos _ _ (by simp [h])]
      simp only [preloadStep, if_pos h, List.map_cons, List.append_assoc,
        List.singleton_append, Prod.mk.injEq, true_and]
      omega
    · rw [List.countP_cons_of_neg _ _ (by simp [h])]
      simp [preloadStep, if_neg h]

theorem preload_data_eq (entries : List RawEntry) :
    preload_data entries =
      (entries.map mkRecord, entries.countP fun e => e.is_hotword == 1) := by
  rw [preload_data, foldl_preloadStep]
  simp

/-! ## C2 -/

/-- C2: `num_batches = len(records) // batch_size` holds after
construction (`__len__` returns `N // batch_size` for a freshly loaded
dataset of size N), `prune_wakewords` recomputes it from the new record
count, and `on_epoch_end` (plain reshuffle) leaves `num_batches`
unchanged while preserving the invariant. -/
theorem C2_num_batches_invariant (entries : List RawEntry) (bs nf : Nat) (sh : Bool)
    (s : DState) (r : Rat) (shufW shufD shufE : List Record → List Record)
    (hbs : 0 < bs)
    (hsE : ∀ l, (shufE l).Perm l)
    (hinv : s.num_batches = s.dataset.length / s.batch_size) :
    length_ (mkDataset entries bs nf sh) = (preload_data entries).1.length / bs ∧
    (mkDataset entries bs nf sh).num_batches =
      (mkDataset entries bs nf sh).dataset.length /
        (mkDataset entries bs nf sh).batch_size ∧
    (prune_wakewords s r shufW shufD).num_batches =
      (prune_wakewords s r shufW shufD).dataset.length /
        (prune_wakewords s r shufW shufD).batch_size ∧
    (on_epoch_end s shufE).num_batches = s.num_batches ∧
    (on_epoch_end s shufE).num_batches =
      (on_epoch_end s shufE).dataset.length / (on_epoch_end s shufE).batch_size := by
  refine ⟨rfl, rfl, rfl, ?_, ?_⟩
  · rw [on_epoch_end]
    by_cases h : s.shuffle <;> simp [h]
  · rw [on_epoch_end]
    by_cases h : s.shuffle <;> simp [h, hinv, (hsE s.dataset).length_eq]

/-- Witness for C2 on concrete data (`id` is a permutation). -/
theorem C2_witness :
    length_ (mkDataset exEntries 2 1 false) = (preload_data exEntries).1.length / 2 ∧
    (mkDataset exEntries 2 1 false).num_batches =
      (mkDataset exEntries 2 1 false).dataset.length /
        (mkDataset exEntries 2 1 false).batch_size ∧
    (prune_wakewords sPrune (1 / 2) id id).num_batches =
      (prune_wakewords sPrune (1 / 2) id id).dataset.length /
        (prune_wakewords sPrune (1 / 2) id id).batch_size ∧
    (on_epoch_end sPrune id).num_batches = sPrune.num_batches ∧
    (on_epoch_end sPrune id).num_batches =
      (on_epoch_end sPrune id).dataset.length / (on_epoch_end sPrune id).batch_size :=
  C2_num_batches_invariant exEntries 2 1 false sPrune (1 / 2) id id id
    (by decide) (fun l => List.Perm.refl l) (by decide)

/-! ## C4 -/

/-- C4: the removal pass of `prune_wakewords` (descending-order deletion)
leaves exactly the original negative-class records, identity and relative
order intact, and moves exactly the positive-class records to the
wakeword list (in descending index order). -/
theorem C4_removal_keeps_negatives (ds : List Record) :
    (removePass ds).1 = ds.filter (fun x => !(x.label == 1)) ∧
    (removePass ds).2 = (ds.filter (fun x => x.label == 1)).reverse := by
  rw [removePass_eq]
  exact ⟨rfl, rfl⟩

/-- Witness for C4 on a concrete five-record dataset. -/
theorem C4_witness :
    (removePass sPrune.dataset).1 =
      sPrune.dataset.filter (fun x => !(x.label == 1)) ∧
    (removePass sPrune.dataset).2 =
      (sPrune.dataset.filter (fun x => x.label == 1)).reverse :=
  C4_removal_keeps_negatives sPrune.dataset

/-! ## C3 -/

theorem floor_ratio_le (r : Rat) (n : Nat) (h1 : r ≤ 1) :
    (Int.floor (r * (n : Rat))).toNat ≤ n := by
  rw [Int.toNat_le]
  calc Int.floor (r * (n : Rat)) ≤ Int.floor ((n : Rat)) :=
        Int.floor_le_floor (by nlinarith [Nat.cast_nonneg (α := Rat) n])
    _ = (n : Int) := Int.floor_natCast n

/-- C3: for `keep_ratio ∈ [0,1]` on a freshly loaded dataset,
`prune_wakewords` retains exactly `⌊keep_ratio * num_wakewords⌋`
positive records, with the frozen load-time count as baseline; the call
leaves `num_wakewords` itself unchanged, and a second call still computes
from the stale load-time baseline. -/
theorem C3_prune_retains_floor (s : DState) (r r2 : Rat)
    (shufW shufD shufW2 shufD2 : List Record → List Record)
    (hsw : ∀ l, (shufW l).Perm l) (hsd : ∀ l, (shufD l).Perm l)
    (hsw2 : ∀ l, (shufW2 l).Perm l) (hsd2 : ∀ l, (shufD2 l).Perm l)
    (h0 : 0 ≤ r) (h1 : r ≤ 1) (h02 : 0 ≤ r2)
    (hfresh : (s.dataset.countP fun x => x.label == 1) = s.num_wakewords) :
    ((prune_wakewords s r shufW shufD).dataset.countP fun x => x.label == 1) =
      (Int.floor (r * (s.num_wakewords : Rat))).toNat ∧
    (prune_wakewords s r shufW shufD).num_wakewords = s.num_wakewords ∧
    ((prune_wakewords (prune_wakewords s r shufW shufD) r2
        shufW2 shufD2).dataset.countP fun x => x.label == 1) =
      min (Int.floor (r2 * (s.num_wakewords : Rat))).toNat
        (Int.floor (r * (s.num_wakewords : Rat))).toNat := by
  have hnn : (0 : Rat) ≤ r * (s.num_wakewords : Rat) :=
    mul_nonneg h0 (by positivity)
  have hcount1 : ((prune_wakewords s r shufW shufD).dataset.countP
      fun x => x.label == 1) = (Int.floor (r * (s.num_wakewords : Rat))).toNat := by
    rw [prune_pos_count s r shufW shufD hsw hsd h0, hfresh,
      intTrunc_nonneg_eq_floor hnn]
    exact Nat.min_eq_left (floor_ratio_le r s.num_wakewords h1)
  refine ⟨hcount1, rfl, ?_⟩
  rw [prune_pos_count _ r2 shufW2 shufD2 hsw2 hsd2 h02, hcount1]
  have hnw : (prune_wakewords s r shufW shufD).num_wakewords = s.num_wakewords := rfl
  rw [hnw, intTrunc_nonneg_eq_floor (mul_nonneg h02 (by positivity))]

/-- Witness for C3: fresh dataset with 3 wakewords, first ratio 1/2
(keeps ⌊3/2⌋ = 1), second ratio 1/3 over the stale baseline. -/
theorem C3_witness :
    ((prune_wakewords sPrune (1 / 2) id id).dataset.countP
        fun x => x.label == 1) =
      (Int.floor ((1 / 2 : Rat) * (sPrune.num_wakewords : Rat))).toNat ∧
    (prune_wakewords sPrune (1 / 2) id id).num_wakewords = sPrune.num_wakewords ∧
    ((prune_wakewords (prune_wakewords sPrune (1 / 2) id id) (1 / 3)
        id id).dataset.countP fun x => x.label == 1) =
      min (Int.floor ((1 / 3 : Rat) * (sPrune.num_wakewords : Rat))).toNat
        (Int.floor ((1 / 2 : Rat) * (sPrune.num_wakewords : Rat))).toNat :=
  C3_prune_retains_floor sPrune (1 / 2) (1 / 3) id id id id
    (fun l => List.Perm.refl l) (fun l => List.Perm.refl l)
    (fun l => List.Perm.refl l) (fun l => List.Perm.refl l)
    (by norm_num) (by norm_num) (by norm_num) (by decide)

/-! ## C5 -/

/-- C5: `prune_wakewords` with `keep_ratio = 0` leaves a dataset with
zero positive-class records. -/
theorem C5_prune_zero_removes_all (s : DState)
    (shufW shufD : List Record → List Record)
    (hsw : ∀ l, (shufW l).Perm l) (hsd : ∀ l, (shufD l).Perm l) :
    ((prune_wakewords s 0 shufW shufD).dataset.countP
      fun x => x.label == 1) = 0 := by
  rw [prune_pos_count s 0 shufW shufD hsw hsd le_rfl]
  norm_num [intTrunc]

/-- Witness for C5 on the concrete five-record dataset. -/
theorem C5_witness :
    ((prune_wakewords sPrune 0 id id).dataset.countP
      fun x => x.label == 1) = 0 :=
  C5_prune_zero_removes_all sPrune id id
    (fun l => List.Perm.refl l) (fun l => List.Perm.refl l)

/-! ## C6 -/

/-- C6: `get_labels` / `get_filenames` fail with the shuffle-precondition
error exactly when the shuffle flag is set — whether or not a shuffle has
actually happened — and otherwise return the label / filename sequence in
current record order, with length the current record count. -/
theorem C6_accessor_guard (s : DState) :
    get_labels s = (if s.shuffle then Except.error shuffleMsg
      else Except.ok (s.dataset.map Record.label)) ∧
    get_filenames s = (if s.shuffle then Except.error shuffleMsg
      else Except.ok (s.dataset.map Record.file_name)) ∧
    (s.dataset.map Record.label).length = number_of_examples s ∧
    (s.dataset.map Record.file_name).length = number_of_examples s := by
  refine ⟨?_, ?_, by simp [number_of_examples], by simp [number_of_examples]⟩
  · rw [get_labels]
    by_cases h : s.shuffle
    · rw [if_pos h, if_pos h]
    · rw [if_neg h, if_neg h]
      simp only [number_of_examples]
      rw [range_map_getD_comp]
  · rw [get_filenames]
    by_cases h : s.shuffle
    · rw [if_pos h, if_pos h]
    · rw [if_neg h, if_neg h]
      simp only [number_of_examples]
      rw [range_map_getD_comp]

/-- Witness for C6: the error fires on the shuffle-enabled state that has
never been shuffled, and the plain state returns the in-order values. -/
theorem C6_witness :
    get_labels sPruneShuffled = Except.error shuffleMsg ∧
    get_filenames sPruneShuffled = Except.error shuffleMsg ∧
    get_labels sPrune = Except.ok (sPrune.dataset.map Record.label) ∧
    get_filenames sPrune = Except.ok (sPrune.dataset.map Record.file_name) :=
  ⟨((C6_accessor_guard sPruneShuffled).1).trans (if_pos rfl),
   ((C6_accessor_guard sPruneShuffled).2.1).trans (if_pos rfl),
   ((C6_accessor_guard sPrune).1).trans (if_neg (by decide)),
   ((C6_accessor_guard sPrune).2.1).trans (if_neg (by decide))⟩

/-! ## C7 -/

/-- C7 as stated is false: on a batch whose second feature array is wider
than the first (widths 2 and 3), `pad_features` raises — the numpy
assignment fails to broadcast, modelled as `none` — instead of silently
truncating; so "padding does not raise an error" does not hold. -/
theorem C7_counterexample : pad_features widthMismatchBatch = none := by decide

/-- C7 amended: the output width is taken from the first array only and
never validated against the others; an array narrower than the first is
copied silently with its missing columns left zero (misalignment), while
an array wider than the first makes the batch fail with a broadcast error
rather than being truncated. -/
theorem C7_first_width_behavior (x0 : List (List Rat)) (X : List (List (List Rat))) :
    ((∃ x ∈ x0 :: X, lastDim x0 < lastDim x ∧ lastDim x ≠ 1) →
      pad_features (x0 :: X) = none) ∧
    ((∀ x ∈ x0 :: X, lastDim x ≤ lastDim x0) →
      ∃ Xp, pad_features (x0 :: X) = some Xp ∧
        (∀ slot ∈ Xp, ∀ row ∈ slot, row.length = lastDim x0) ∧
        (∀ k, k < (x0 :: X).length →
          ∀ t j, t < pyMax ((x0 :: X).map List.length) → j < lastDim x0 →
            ((Xp.getD k []).getD t []).getD j 0 =
              if t < ((x0 :: X).getD k []).length ∧
                  j < lastDim ((x0 :: X).getD k [])
              then (((x0 :: X).getD k []).getD t []).getD j 0 else 0)) := by
  constructor
  · intro h
    exact (pad_features_none_iff x0 X).mpr h
  · intro h
    have hbc : ∀ x ∈ x0 :: X, broadcastOk (lastDim x0) x = true := by
      intro x hx
      simp [broadcastOk, h x hx]
    refine ⟨_, pad_features_eq_some hbc, ?_, ?_⟩
    · intro slot hslot row hrow
      rw [List.mem_map] at hslot
      obtain ⟨x, _, rfl⟩ := hslot
      exact padSlot_row_length _ _ _ _ hrow
    · intro k hk t j ht hj
      rw [getD_map_lt (padSlot (pyMax ((x0 :: X).map List.length)) (lastDim x0))
        (x0 :: X) k hk [] [], padSlot_entry _ _ _ _ _ ht hj]
      have hle : lastDim ((x0 :: X).getD k []) ≤ lastDim x0 :=
        h _ (getD_mem_of_lt _ _ _ hk)
      rw [Nat.min_eq_left hle]

/-- Witness for C7's amended statement: the wider-second batch errors, the
narrower-second batch succeeds with first-array width and zero-fill. -/
theorem C7_witness :
    pad_features ([[(1 : Rat), 2]] :: [[[3, 4, 5]]]) = none ∧
    (∃ Xp, pad_features ([[(1 : Rat), 2]] :: [[[3]]]) = some Xp ∧
      (∀ slot ∈ Xp, ∀ row ∈ slot, row.length = lastDim [[(1 : Rat), 2]]) ∧
      (∀ k, k < ([[(1 : Rat), 2]] :: [[[3]]]).length →
        ∀ t j, t < pyMax (([[(1 : Rat), 2]] :: [[[3]]]).map List.length) →
          j < lastDim [[(1 : Rat), 2]] →
          ((Xp.getD k []).getD t []).getD j 0 =
            if t < (([[(1 : Rat), 2]] :: [[[3]]]).getD k []).length ∧
                j < lastDim (([[(1 : Rat), 2]] :: [[[3]]]).getD k [])
            then ((([[(1 : Rat), 2]] :: [[[3]]]).getD k []).getD t []).getD j 0
            else 0)) :=
  ⟨(C7_first_width_behavior [[(1 : Rat), 2]] [[[3, 4, 5]]]).1 (by decide),
   (C7_first_width_behavior [[(1 : Rat), 2]] [[[3]]]).2 (by decide)⟩

/-! ## C8 -/

/-- C8: an out-of-range `keep_ratio > 1` is not validated and causes no
index error: the slice clamps to all available positive records, so on a
freshly loaded dataset the positive count and the total record count are
both unchanged by the prune. -/
theorem C8_over_ratio_clamps (s : DState) (r : Rat)
    (shufW shufD : List Record → List Record)
    (hsw : ∀ l, (shufW l).Perm l) (hsd : ∀ l, (shufD l).Perm l)
    (hr : 1 < r)
    (hle : (s.dataset.countP fun x => x.label == 1) ≤ s.num_wakewords) :
    ((prune_wakewords s r shufW shufD).dataset.countP fun x => x.label == 1) =
      (s.dataset.countP fun x => x.label == 1) ∧
    (prune_wakewords s r shufW shufD).dataset.length = s.dataset.length := by
  have h0 : (0 : Rat) ≤ r := le_of_lt (lt_trans zero_lt_one hr)
  have hnw : (s.num_wakewords : Int) ≤ Int.floor (r * (s.num_wakewords : Rat)) := by
    rw [Int.le_floor]
    push_cast
    nlinarith [Nat.cast_nonneg (α := Rat) s.num_wakewords]
  have hmin : min (intTrunc (r * (s.num_wakewords : Rat))).toNat
      (s.dataset.countP fun x => x.label == 1) =
      (s.dataset.countP fun x => x.label == 1) := by
    rw [intTrunc_nonneg_eq_floor (mul_nonneg h0 (by positivity))]
    omega
  constructor
  · rw [prune_pos_count s r shufW shufD hsw hsd h0, hmin]
  · rw [prune_length_eq s r shufW shufD hsw hsd h0, hmin]
    have hsplit := countP_not_add s.dataset (fun x => x.label == 1)
    omega

/-- Witness for C8 with `keep_ratio = 2` on the fresh five-record set. -/
theorem C8_witness :
    ((prune_wakewords sPrune 2 id id).dataset.countP fun x => x.label == 1) =
      (sPrune.dataset.countP fun x => x.label == 1) ∧
    (prune_wakewords sPrune 2 id id).dataset.length = sPrune.dataset.length :=
  C8_over_ratio_clamps sPrune 2 id id (fun l => List.Perm.refl l)
    (fun l => List.Perm.refl l) (by norm_num) (by decide)

/-! ## C9 -/

/-- C9: `num_wakewords` is set once during load (counting raw
`is_hotword == 1` attributes) and never modified afterwards:
`prune_wakewords`, `__getitem__`, `on_epoch_end` and the accessor all
leave it at the load-time value. -/
theorem C9_num_wakewords_frozen (entries : List RawEntry) (bs nf : Nat) (sh : Bool)
    (s : DState) (r : Rat) (i : Nat)
    (shufW shufD shufE : List Record → List Record) :
    (mkDataset entries bs nf sh).num_wakewords =
      (entries.countP fun e => e.is_hotword == 1) ∧
    (prune_wakewords s r shufW shufD).num_wakewords = s.num_wakewords ∧
    ((getitem s i).2).num_wakewords = s.num_wakewords ∧
    (on_epoch_end s shufE).num_wakewords = s.num_wakewords ∧
    number_of_wakewords s = s.num_wakewords ∧
    number_of_wakewords (prune_wakewords s r shufW shufD) = s.num_wakewords := by
  refine ⟨?_, rfl, rfl, ?_, rfl, rfl⟩
  · show (preload_data entries).2 = _
    rw [preload_data_eq]
  · rw [on_epoch_end]
    by_cases h : s.shuffle <;> simp [h]

/-- Witness for C9 on concrete data. -/
theorem C9_witness :
    (mkDataset exEntries 2 1 false).num_wakewords =
      (exEntries.countP fun e => e.is_hotword == 1) ∧
    (prune_wakewords sPrune (1 / 2) id id).num_wakewords = sPrune.num_wakewords ∧
    ((getitem sPrune 0).2).num_wakewords = sPrune.num_wakewords ∧
    (on_epoch_end sPrune id).num_wakewords = sPrune.num_wakewords ∧
    number_of_wakewords sPrune = sPrune.num_wakewords ∧
    number_of_wakewords (prune_wakewords sPrune (1 / 2) id id) =
      sPrune.num_wakewords :=
  C9_num_wakewords_frozen exEntries 2 1 false sPrune (1 / 2) 0 id id id

/-! ## C10 -/

/-- C10: batch retrieval is read-only — `__getitem__` returns the state
with every field (records, counts, flags) unchanged — and the returned
features tensor is a fresh zero-initialised structure built by `padSlot`,
not one of the stored feature arrays. -/
theorem C10_getitem_readonly (s : DState) (i : Nat) :
    (getitem s i).2 = s ∧
    ∀ Xp y, (getitem s i).1 = some (Xp, y) →
      Xp = (batchFeatures s i).map
        (padSlot (batchMaxLen s i) (lastDim ((batchFeatures s i).headD []))) := by
  refine ⟨rfl, ?_⟩
  intro Xp y h
  simp only [getitem] at h
  by_cases hall : ((batchIdxs s i).all fun j => decide (j < s.dataset.length)) = true
  · rw [if_pos hall] at h
    cases hBF : batchFeatures s i with
    | nil =>
      rw [hBF] at h
      simp [pad_features] at h
    | cons x0 X =>
      rw [hBF] at h
      have hmax : batchMaxLen s i = pyMax ((x0 :: X).map List.length) := by
        show pyMax ((batchFeatures s i).map List.length) = _
        rw [hBF]
      by_cases hb : ((x0 :: X).all (broadcastOk (lastDim x0))) = true
      · rw [pad_features_eq_some (List.all_eq_true.mp hb), Option.map_some'] at h
        rw [Option.some.injEq, Prod.mk.injEq] at h
        rw [List.headD_cons, hmax]
        exact h.1.symm
      · rw [show pad_features (x0 :: X) = none by
          simp only [pad_features]
          rw [if_neg hb]] at h
        simp at h
  · rw [if_neg hall] at h
    simp at h

/-- Witness for C10 on the concrete one-batch dataset. -/
theorem C10_witness :
    (getitem sBatch 0).2 = sBatch ∧
    ∀ Xp y, (getitem sBatch 0).1 = some (Xp, y) →
      Xp = (batchFeatures sBatch 0).map
        (padSlot (batchMaxLen sBatch 0)
          (lastDim ((batchFeatures sBatch 0).headD []))) :=
  C10_getitem_readonly sBatch 0

/-- Witness for C1 on the concrete one-batch dataset of width 2. -/
theorem C1_witness :
    ∃ Xp y, (getitem sBatch 0).1 = some (Xp, y) ∧
      y.length = sBatch.batch_size ∧
      Xp.length = sBatch.batch_size ∧
      (∀ k, k < sBatch.batch_size →
        (Xp.getD k []).length = batchMaxLen sBatch 0 ∧
        (∀ row ∈ Xp.getD k [], row.length = 2) ∧
        (∀ t, t < (sBatch.dataset.getD
            (sBatch.batch_size * 0 + k) default).features.length →
          (Xp.getD k []).getD t [] =
            (sBatch.dataset.getD (sBatch.batch_size * 0 + k) default).features.getD
              t []) ∧
        (∀ t j, t < batchMaxLen sBatch 0 → j < 2 →
          ((Xp.getD k []).getD t []).getD j 0 =
            if t < (sBatch.dataset.getD
                (sBatch.batch_size * 0 + k) default).features.length
            then ((sBatch.dataset.getD
              (sBatch.batch_size * 0 + k) default).features.getD t []).getD j 0
            else 0)) :=
  C1_getitem_shape_pad sBatch 0 2 (by decide) (by decide) (by decide)
    (by decide) (by decide)

end WWDetect
